import Mathlib

/-!
Verification development for a billing/receivables management app
(`src/app.py`).  The app issues single or installment invoices
("boletos"), computes per-customer pending balances and monthly paid
revenue, and edits/settles invoices against an external backend.

The embedding models:
* the Gregorian calendar (pandas `Timestamp`/`DateOffset` day and month
  arithmetic, at day granularity) with dates as `(year, month, day)` and
  a conversion to a day count since 0000-01-01 (proleptic Gregorian);
* `ajustar_dia_util` (the while loop advancing a date past weekends and
  listed holidays) as a fuel-based function together with proofs that it
  satisfies the loop's unfolding equations and computes the least
  qualifying day;
* the aggregation routines `calcular_saldo_por_cliente` and the monthly
  revenue computation of `pagina_dashboard` over list-modelled
  DataFrames (pandas column presence is modelled by table-level flags,
  `groupby` by sorted distinct keys, `merge(how="left")` by a filter);
* the page handlers as pure functions from their form inputs and a
  backend failure oracle to the ordered list of attempted backend calls
  plus the user-visible message flags.

Money amounts are idealised as rationals and timestamps at day
granularity; status strings keep their Portuguese source values
("pendente", "pago", "baixado").
-/

namespace App

/-! ## Calendar (models pandas day/month arithmetic on dates) -/

/-- Gregorian leap year test. -/
def bissexto (y : ℕ) : Bool :=
  (y % 4 == 0 && y % 100 != 0) || y % 400 == 0

/-- Days in month `m` (1..12) of year `y`; 0 outside the valid range. -/
def daysInMonth (y m : ℕ) : ℕ :=
  if m = 2 then (if bissexto y then 29 else 28)
  else if m = 4 ∨ m = 6 ∨ m = 9 ∨ m = 11 then 30
  else if 1 ≤ m ∧ m ≤ 12 then 31
  else 0

/-- Days in year `y`. -/
def daysInYear (y : ℕ) : ℕ := if bissexto y then 366 else 365

/-- Days strictly before year `y`, counting from year 0. -/
def daysBeforeYear : ℕ → ℕ
  | 0 => 0
  | y + 1 => daysBeforeYear y + daysInYear y

/-- Days of year `y` strictly before month `m`. -/
def daysBeforeMonth (y : ℕ) : ℕ → ℕ
  | 0 => 0
  | m + 1 => daysBeforeMonth y m + daysInMonth y m

/-- A calendar date, as carried by a pandas `Timestamp` at day
granularity. -/
structure Date where
  year : ℕ
  month : ℕ
  day : ℕ
deriving DecidableEq

/-- A date is valid when its month and day are in range. -/
def Date.Valid (d : Date) : Prop :=
  1 ≤ d.month ∧ d.month ≤ 12 ∧ 1 ≤ d.day ∧ d.day ≤ daysInMonth d.year d.month

instance (d : Date) : Decidable d.Valid := by
  unfold Date.Valid; infer_instance

/-- Day number of a date, counted from 0000-01-01 (proleptic
Gregorian), the linear timeline on which pandas `Timedelta(days=1)`
adds 1. -/
def toDays (d : Date) : ℕ :=
  daysBeforeYear d.year + daysBeforeMonth d.year d.month + (d.day - 1)

/-- `date + pd.DateOffset(months=i)`: advance `i` calendar months
keeping the day of month, clamped to the target month's length. -/
def addMonths (d : Date) (i : ℕ) : Date :=
  let t := 12 * d.year + (d.month - 1) + i
  ⟨t / 12, t % 12 + 1, min d.day (daysInMonth (t / 12) (t % 12 + 1))⟩

theorem daysBeforeMonth_succ (y m : ℕ) :
    daysBeforeMonth y (m + 1) = daysBeforeMonth y m + daysInMonth y m := rfl

theorem daysInMonth_zero (y : ℕ) : daysInMonth y 0 = 0 := by
  simp [daysInMonth]

theorem one_le_daysInMonth {y m : ℕ} (h1 : 1 ≤ m) (h2 : m ≤ 12) :
    1 ≤ daysInMonth y m := by
  unfold daysInMonth
  split
  · split <;> norm_num
  · split
    · norm_num
    · split
      · norm_num
      · omega

/-- The twelve months of a year sum to the year's length. -/
theorem daysBeforeMonth_13 (y : ℕ) : daysBeforeMonth y 13 = daysInYear y := by
  have h2 : daysInMonth y 2 = if bissexto y then 29 else 28 := by
    simp [daysInMonth]
  have h1 : daysInMonth y 1 = 31 := by norm_num [daysInMonth]
  have h3 : daysInMonth y 3 = 31 := by norm_num [daysInMonth]
  have h4 : daysInMonth y 4 = 30 := by norm_num [daysInMonth]
  have h5 : daysInMonth y 5 = 31 := by norm_num [daysInMonth]
  have h6 : daysInMonth y 6 = 30 := by norm_num [daysInMonth]
  have h7 : daysInMonth y 7 = 31 := by norm_num [daysInMonth]
  have h8 : daysInMonth y 8 = 31 := by norm_num [daysInMonth]
  have h9 : daysInMonth y 9 = 30 := by norm_num [daysInMonth]
  have h10 : daysInMonth y 10 = 31 := by norm_num [daysInMonth]
  have h11 : daysInMonth y 11 = 30 := by norm_num [daysInMonth]
  have h12 : daysInMonth y 12 = 31 := by norm_num [daysInMonth]
  have e : daysBeforeMonth y 13 =
      daysInMonth y 0 + daysInMonth y 1 + daysInMonth y 2 + daysInMonth y 3 +
      daysInMonth y 4 + daysInMonth y 5 + daysInMonth y 6 + daysInMonth y 7 +
      daysInMonth y 8 + daysInMonth y 9 + daysInMonth y 10 + daysInMonth y 11 +
      daysInMonth y 12 := rfl
  rw [e, daysInMonth_zero, h1, h2, h3, h4, h5, h6, h7, h8, h9, h10, h11, h12,
    daysInYear]
  cases bissexto y <;> simp

/-- Crossing from one calendar month to the next strictly increases the
day number, whatever (valid) days of month are chosen on each side.
Months are indexed linearly: month index `t` denotes month `t % 12 + 1`
of year `t / 12`. -/
theorem toDays_month_lt (t a b : ℕ) (ha1 : 1 ≤ a)
    (ha2 : a ≤ daysInMonth (t / 12) (t % 12 + 1)) (hb : 1 ≤ b) :
    daysBeforeYear (t / 12) + daysBeforeMonth (t / 12) (t % 12 + 1) + (a - 1) <
    daysBeforeYear ((t + 1) / 12) + daysBeforeMonth ((t + 1) / 12) ((t + 1) % 12 + 1) + (b - 1) := by
  rcases Nat.lt_or_ge (t % 12) 11 with hlt | hge
  · have e1 : (t + 1) / 12 = t / 12 := by omega
    have e2 : (t + 1) % 12 = t % 12 + 1 := by omega
    rw [e1, e2]
    have eM : daysBeforeMonth (t / 12) (t % 12 + 1 + 1) =
        daysBeforeMonth (t / 12) (t % 12 + 1) + daysInMonth (t / 12) (t % 12 + 1) := rfl
    omega
  · have h11 : t % 12 = 11 := by omega
    have e1 : (t + 1) / 12 = t / 12 + 1 := by omega
    have e2 : (t + 1) % 12 = 0 := by omega
    rw [e1, e2, h11]
    rw [show (11 : ℕ) + 1 = 12 from rfl, show (0 : ℕ) + 1 = 1 from rfl]
    rw [h11, show (11 : ℕ) + 1 = 12 from rfl] at ha2
    have eY : daysBeforeYear (t / 12 + 1) =
        daysBeforeYear (t / 12) + daysInYear (t / 12) := rfl
    have eM : daysBeforeMonth (t / 12) 13 =
        daysBeforeMonth (t / 12) 12 + daysInMonth (t / 12) 12 := rfl
    have eS : daysBeforeMonth (t / 12) 13 = daysInYear (t / 12) :=
      daysBeforeMonth_13 (t / 12)
    have eM1 : daysBeforeMonth (t / 12 + 1) 1 = 0 := by
      have h := daysBeforeMonth_succ (t / 12 + 1) 0
      rw [daysInMonth_zero] at h
      simpa [daysBeforeMonth] using h
    omega

/-- Adding one more month strictly increases the day number. -/
theorem toDays_addMonths_lt (d : Date) (hd : 1 ≤ d.day) (i : ℕ) :
    toDays (addMonths d i) < toDays (addMonths d (i + 1)) := by
  have ht : 12 * d.year + (d.month - 1) + (i + 1) =
      (12 * d.year + (d.month - 1) + i) + 1 := by omega
  set t := 12 * d.year + (d.month - 1) + i with htdef
  have hmo1 : 1 ≤ t % 12 + 1 := by omega
  have hmo2 : t % 12 + 1 ≤ 12 := by omega
  have hmo1' : 1 ≤ (t + 1) % 12 + 1 := by omega
  have hmo2' : (t + 1) % 12 + 1 ≤ 12 := by omega
  show toDays (addMonths d i) < toDays (addMonths d (i + 1))
  unfold addMonths toDays
  simp only [ht, ← htdef]
  apply toDays_month_lt
  · exact le_min hd (one_le_daysInMonth hmo1 hmo2)
  · exact min_le_right _ _
  · exact le_min hd (one_le_daysInMonth hmo1' hmo2')

/-- Adding zero months to a valid date gives the date back. -/
theorem addMonths_zero (d : Date) (hv : d.Valid) : addMonths d 0 = d := by
  obtain ⟨h1, h2, h3, h4⟩ := hv
  unfold addMonths
  have e : 12 * d.year + (d.month - 1) + 0 = 12 * d.year + (d.month - 1) := rfl
  have ediv : (12 * d.year + (d.month - 1)) / 12 = d.year := by omega
  have emod : (12 * d.year + (d.month - 1)) % 12 = d.month - 1 := by omega
  simp only [e, ediv, emod]
  have em : d.month - 1 + 1 = d.month := by omega
  rw [em]
  have : min d.day (daysInMonth d.year d.month) = d.day := min_eq_left h4
  rw [this]

/-! ## Business-day adjustment (`ajustar_dia_util`, src/app.py lines 45-49)

The source is a `while` loop advancing the timestamp one day at a time
while it falls on a weekend (`weekday() >= 5`) or in the holiday list
`FERIADOS_BR`.  Here holidays are a finite list of day numbers; the loop
is embedded with an explicit fuel that is proved sufficient, and
`ajustar_eq_self`/`ajustar_step` below recover the loop's exact
unfolding equations. -/

/-- Python `weekday()`: Monday = 0 .. Sunday = 6.  Day 0 (0000-01-01,
proleptic Gregorian) was a Saturday. -/
def weekday (d : ℕ) : ℕ := (d + 5) % 7

/-- The loop guard: the date falls on a weekend or a listed holiday. -/
def diaRuim (H : List ℕ) (d : ℕ) : Prop := 5 ≤ weekday d ∨ d ∈ H

instance (H : List ℕ) (d : ℕ) : Decidable (diaRuim H d) := by
  unfold diaRuim; infer_instance

/-- Largest listed holiday (0 when the list is empty). -/
def maxFeriado (H : List ℕ) : ℕ := H.foldr max 0

theorem le_maxFeriado {H : List ℕ} {h : ℕ} (hh : h ∈ H) : h ≤ maxFeriado H := by
  induction H with
  | nil => cases hh
  | cons a t ih =>
    have hfold : maxFeriado (a :: t) = max a (maxFeriado t) := rfl
    rcases List.mem_cons.mp hh with hh | hh
    · subst hh; rw [hfold]; exact le_max_left _ _
    · exact le_trans (ih hh) (by rw [hfold]; exact le_max_right _ _)

/-- Body iteration of the loop, with fuel. -/
def ajustarFuel (H : List ℕ) : ℕ → ℕ → ℕ
  | 0, d => d
  | f + 1, d => if diaRuim H d then ajustarFuel H f (d + 1) else d

/-- `ajustar_dia_util`: advance the date to the next qualifying
(non-weekend, non-holiday) day.  The fuel `maxFeriado H + 14` is proved
sufficient below (`ajustar_dia_util_spec`). -/
def ajustar_dia_util (H : List ℕ) (d : ℕ) : ℕ :=
  ajustarFuel H (maxFeriado H + 14) d

/-- A qualifying day always exists within `maxFeriado H + 13` days. -/
theorem existe_bom_le (H : List ℕ) (d : ℕ) :
    ∃ k, k ≤ maxFeriado H + 13 ∧ ¬ diaRuim H (d + k) := by
  set k0 := maxFeriado H + 7 with hk0
  set j := (7 - (d + k0 + 5) % 7) % 7 with hj
  refine ⟨k0 + j, by omega, ?_⟩
  have hwd : weekday (d + (k0 + j)) = 0 := by
    unfold weekday
    omega
  intro hbad
  rcases hbad with hw | hmem
  · rw [hwd] at hw; omega
  · have := le_maxFeriado hmem
    omega

theorem existe_bom (H : List ℕ) (d : ℕ) : ∃ k, ¬ diaRuim H (d + k) := by
  obtain ⟨k, _, hk⟩ := existe_bom_le H d
  exact ⟨k, hk⟩

/-- With enough fuel, the fueled loop lands on the first qualifying day. -/
theorem ajustarFuel_eq (H : List ℕ) :
    ∀ (f d k : ℕ), k ≤ f → ¬ diaRuim H (d + k) → (∀ m, m < k → diaRuim H (d + m)) →
    ajustarFuel H f d = d + k := by
  intro f
  induction f with
  | zero =>
    intro d k hk hg _
    have : k = 0 := by omega
    subst this
    simp [ajustarFuel]
  | succ f ih =>
    intro d k hk hg hmin
    by_cases hd : diaRuim H d
    · have hkpos : 0 < k := by
        rcases Nat.eq_zero_or_pos k with h0 | h0
        · subst h0; simp at hg; exact absurd hd hg
        · exact h0
      have := ih (d + 1) (k - 1) (by omega)
        (by have : d + 1 + (k - 1) = d + k := by omega
            rw [this]; exact hg)
        (by intro m hm
            have : d + 1 + m = d + (m + 1) := by omega
            rw [this]; exact hmin (m + 1) (by omega))
      simp only [ajustarFuel, if_pos hd]
      omega
    · have hk0 : k = 0 := by
        by_contra hne
        exact hd (by simpa using hmin 0 (by omega))
      subst hk0
      simp [ajustarFuel, hd]

/-- Characterisation: `ajustar_dia_util` returns the first qualifying
day at or after its input (the exit point of the source's while loop). -/
theorem ajustar_dia_util_spec (H : List ℕ) (d : ℕ) :
    ajustar_dia_util H d = d + Nat.find (existe_bom H d) := by
  apply ajustarFuel_eq
  · obtain ⟨k, hk, hgood⟩ := existe_bom_le H d
    have := Nat.find_min' (existe_bom H d) hgood
    omega
  · exact Nat.find_spec (existe_bom H d)
  · intro m hm
    have := Nat.find_min (existe_bom H d) hm
    simpa using this

/-- Loop unfolding: on a qualifying day the loop exits immediately. -/
theorem ajustar_eq_self {H : List ℕ} {d : ℕ} (h : ¬ diaRuim H d) :
    ajustar_dia_util H d = d := by
  rw [ajustar_dia_util_spec]
  have : Nat.find (existe_bom H d) = 0 := by
    rw [Nat.find_eq_zero]
    simpa using h
  omega

/-- Loop unfolding: on a bad day the loop advances one day and
continues. -/
theorem ajustar_step {H : List ℕ} {d : ℕ} (h : diaRuim H d) :
    ajustar_dia_util H d = ajustar_dia_util H (d + 1) := by
  rw [ajustar_dia_util_spec, ajustar_dia_util_spec]
  have h1 : 0 < Nat.find (existe_bom H d) := by
    rcases Nat.eq_zero_or_pos (Nat.find (existe_bom H d)) with h0 | h0
    · have := Nat.find_spec (existe_bom H d)
      rw [h0] at this
      simp at this
      exact absurd h this
    · exact h0
  have h2 : Nat.find (existe_bom H (d + 1)) = Nat.find (existe_bom H d) - 1 := by
    have hspec := Nat.find_spec (existe_bom H d)
    apply le_antisymm
    · apply Nat.find_min' (existe_bom H (d + 1))
      have : d + 1 + (Nat.find (existe_bom H d) - 1) = d + Nat.find (existe_bom H d) := by
        omega
      rw [this]
      exact hspec
    · by_contra hlt
      push_neg at hlt
      have hbad := Nat.find_min (existe_bom H d)
        (m := Nat.find (existe_bom H (d + 1)) + 1) (by omega)
      have hgood := Nat.find_spec (existe_bom H (d + 1))
      have : d + 1 + Nat.find (existe_bom H (d + 1)) =
          d + (Nat.find (existe_bom H (d + 1)) + 1) := by omega
      rw [this] at hgood
      simp at hbad
      exact hgood hbad
  omega

theorem le_ajustar (H : List ℕ) (d : ℕ) : d ≤ ajustar_dia_util H d := by
  rw [ajustar_dia_util_spec]; omega

theorem bom_ajustar (H : List ℕ) (d : ℕ) : ¬ diaRuim H (ajustar_dia_util H d) := by
  rw [ajustar_dia_util_spec]
  exact Nat.find_spec (existe_bom H d)

theorem ajustar_le_of_bom {H : List ℕ} {d e : ℕ} (h1 : d ≤ e)
    (h2 : ¬ diaRuim H e) : ajustar_dia_util H d ≤ e := by
  rw [ajustar_dia_util_spec]
  have : ¬ diaRuim H (d + (e - d)) := by
    have : d + (e - d) = e := by omega
    rw [this]; exact h2
  have := Nat.find_min' (existe_bom H d) this
  omega

theorem ajustar_mono {H : List ℕ} {a b : ℕ} (h : a ≤ b) :
    ajustar_dia_util H a ≤ ajustar_dia_util H b :=
  ajustar_le_of_bom (le_trans h (le_ajustar H b)) (bom_ajustar H b)

theorem ajustar_idem (H : List ℕ) (d : ℕ) :
    ajustar_dia_util H (ajustar_dia_util H d) = ajustar_dia_util H d :=
  ajustar_eq_self (bom_ajustar H d)

/-! ## Installment scheduler (src/app.py lines 405-428)

For installment `i` the base due date is `start + DateOffset(months=i)`
("Mensal (Mesmo dia)") or `start + Timedelta(days=dias_intervalo * i)`
("Personalizado (Dias Corridos)"); with `pular_fds` the base date is
passed through `ajustar_dia_util`. -/

inductive TipoIntervalo
  | mensal
  | personalizado (dias : ℕ)

/-- Due date (as a day number) of installment `i`. -/
def vencParcela (H : List ℕ) (pular : Bool) (tipo : TipoIntervalo) (d1 : Date) (i : ℕ) : ℕ :=
  let base := match tipo with
    | TipoIntervalo.mensal => toDays (addMonths d1 i)
    | TipoIntervalo.personalizado dias => toDays d1 + dias * i
  if pular then ajustar_dia_util H base else base

/-- The full schedule: one due date per installment index `0..qtd-1`. -/
def vencimentos (H : List ℕ) (pular : Bool) (tipo : TipoIntervalo) (d1 : Date) (qtd : ℕ) :
    List ℕ :=
  (List.range qtd).map (vencParcela H pular tipo d1)

theorem vencParcela_mono (H : List ℕ) (pular : Bool) (tipo : TipoIntervalo)
    (d1 : Date) (hd : 1 ≤ d1.day) (i : ℕ) :
    vencParcela H pular tipo d1 i ≤ vencParcela H pular tipo d1 (i + 1) := by
  unfold vencParcela
  have hbase : (match tipo with
      | TipoIntervalo.mensal => toDays (addMonths d1 i)
      | TipoIntervalo.personalizado dias => toDays d1 + dias * i) ≤
      (match tipo with
      | TipoIntervalo.mensal => toDays (addMonths d1 (i + 1))
      | TipoIntervalo.personalizado dias => toDays d1 + dias * (i + 1)) := by
    cases tipo with
    | mensal => exact le_of_lt (toDays_addMonths_lt d1 hd i)
    | personalizado dias =>
      show toDays d1 + dias * i ≤ toDays d1 + dias * (i + 1)
      have : dias * i ≤ dias * (i + 1) := Nat.mul_le_mul_left dias (by omega)
      omega
  cases pular with
  | true => simpa using ajustar_mono hbase
  | false => simpa using hbase

/-! ## Description strings

Auto-filled and manual installment modes suffix each description with
`f"(Parcela {i+1}/{qtd})"`; a non-empty general description is joined
with a space and the result passed through Python `str.strip()`.
Strings are modelled as character lists and `strip` as dropping
whitespace from both ends. -/

/-- Python `str.strip()` whitespace test, for the characters at issue. -/
def espaco (c : Char) : Bool := c.isWhitespace

/-- Python `str.strip()`. -/
def pyStrip (l : List Char) : List Char :=
  ((l.dropWhile espaco).reverse.dropWhile espaco).reverse

/-- The installment suffix `f"(Parcela {i}/{n})"`. -/
def parcelaTag (i n : ℕ) : List Char :=
  '(' :: ("Parcela ".toList ++ (Nat.repr i).toList ++ '/' :: ((Nat.repr n).toList ++ [')']))

/-- The final description of installment `i` of `n`:
`f"{descricao} {texto_parcela}".strip() if descricao else texto_parcela`. -/
def descFinal (desc : List Char) (i n : ℕ) : List Char :=
  if desc.isEmpty then parcelaTag i n
  else pyStrip (desc ++ Char.ofNat 32 :: parcelaTag i n)

theorem suffix_dropWhile {c : Char} {r : List Char} (hc : espaco c = false) :
    ∀ l : List Char, (c :: r) <:+ l → (c :: r) <:+ l.dropWhile espaco := by
  intro l
  induction l with
  | nil =>
    intro h
    simpa using h
  | cons x xs ih =>
    intro h
    rcases List.suffix_cons_iff.mp h with h | h
    · have hcx : c = x := by
        have := congrArg List.head? h
        simpa using this
      have hx : espaco x = false := by rw [← hcx]; exact hc
      rw [List.dropWhile_cons, hx]
      simp only [Bool.false_eq_true, if_false]
      exact h ▸ List.suffix_refl _
    · rw [List.dropWhile_cons]
      cases hx : espaco x with
      | true =>
        simp only [if_true]
        exact ih h
      | false =>
        simp only [Bool.false_eq_true, if_false]
        exact h.trans (List.suffix_cons x xs)

theorem dropWhile_reverse_append (m : List Char) (c : Char) (hc : espaco c = false) :
    (((m ++ [c]).reverse).dropWhile espaco).reverse = m ++ [c] := by
  rw [List.reverse_append]
  simp only [List.reverse_cons, List.reverse_nil, List.nil_append, List.singleton_append]
  rw [List.dropWhile_cons, hc]
  simp

theorem tag_suffix_pyStrip {l : List Char} {i n : ℕ} (h : parcelaTag i n <:+ l) :
    parcelaTag i n <:+ pyStrip l := by
  have e : parcelaTag i n =
      '(' :: ("Parcela ".toList ++ (Nat.repr i).toList ++ '/' ::
        ((Nat.repr n).toList ++ [')'])) := rfl
  have h1 : parcelaTag i n <:+ l.dropWhile espaco := by
    rw [e] at h ⊢
    exact suffix_dropWhile (by decide) l h
  obtain ⟨s, hs⟩ := h1
  have e2 : parcelaTag i n =
      ('(' :: ("Parcela ".toList ++ (Nat.repr i).toList ++ '/' :: (Nat.repr n).toList)) ++
        [')'] := by
    rw [e]; simp
  have hform : l.dropWhile espaco =
      (s ++ ('(' :: ("Parcela ".toList ++ (Nat.repr i).toList ++ '/' ::
        (Nat.repr n).toList))) ++ [')'] := by
    rw [← hs, e2]; simp
  unfold pyStrip
  rw [hform, dropWhile_reverse_append _ _ (by decide), ← hform]
  exact ⟨s, hs⟩

/-- The installment suffix survives the `strip()`: every generated
description ends with its `(Parcela i/n)` tag. -/
theorem parcelaTag_suffix_descFinal (desc : List Char) (i n : ℕ) :
    parcelaTag i n <:+ descFinal desc i n := by
  unfold descFinal
  split
  · exact List.suffix_refl _
  · exact tag_suffix_pyStrip ⟨desc ++ [Char.ofNat 32], by simp⟩

/-! ## Sorted grouping (models pandas `groupby(...).sum()` with its
default ascending key sort) -/

/-- Insert a key into a strictly sorted key list, keeping it sorted and
duplicate-free. -/
def insertKey {α : Type} [LinearOrder α] (x : α) : List α → List α
  | [] => [x]
  | y :: ys => if x < y then x :: y :: ys else if x = y then y :: ys else y :: insertKey x ys

/-- The distinct keys of a list, in ascending order (pandas `groupby`
key index). -/
def sortedKeys {α : Type} [LinearOrder α] (l : List α) : List α := l.foldr insertKey []

theorem mem_insertKey {α : Type} [LinearOrder α] (a x : α) (l : List α) :
    a ∈ insertKey x l ↔ a = x ∨ a ∈ l := by
  induction l with
  | nil => simp [insertKey]
  | cons y ys ih =>
    by_cases h1 : x < y
    · simp only [insertKey, if_pos h1, List.mem_cons]
    · by_cases h2 : x = y
      · subst h2
        have e : insertKey x (x :: ys) = x :: ys := by
          simp [insertKey, h1]
        rw [e, List.mem_cons]
        tauto
      · simp only [insertKey, if_neg h1, if_neg h2, List.mem_cons, ih]
        tauto

theorem pairwise_insertKey {α : Type} [LinearOrder α] (x : α) (l : List α)
    (h : l.Pairwise (· < ·)) : (insertKey x l).Pairwise (· < ·) := by
  induction l with
  | nil => simp [insertKey]
  | cons y ys ih =>
    rcases List.pairwise_cons.mp h with ⟨hy, hys⟩
    by_cases h1 : x < y
    · simp only [insertKey, if_pos h1]
      refine List.pairwise_cons.mpr ⟨?_, h⟩
      intro z hz
      rcases List.mem_cons.mp hz with rfl | hz
      · exact h1
      · exact h1.trans (hy z hz)
    · by_cases h2 : x = y
      · simp only [insertKey, if_neg h1, if_pos h2]
        exact h
      · simp only [insertKey, if_neg h1, if_neg h2]
        refine List.pairwise_cons.mpr ⟨?_, ih hys⟩
        intro z hz
        rcases (mem_insertKey z x ys).mp hz with rfl | hz
        · exact lt_of_le_of_ne (not_lt.mp h1) (fun he => h2 he.symm)
        · exact hy z hz

theorem sortedKeys_pairwise {α : Type} [LinearOrder α] (l : List α) :
    (sortedKeys l).Pairwise (· < ·) := by
  induction l with
  | nil => simp [sortedKeys]
  | cons a t ih => exact pairwise_insertKey a _ ih

theorem mem_sortedKeys {α : Type} [LinearOrder α] (a : α) (l : List α) :
    a ∈ sortedKeys l ↔ a ∈ l := by
  induction l with
  | nil => simp [sortedKeys]
  | cons b t ih =>
    show a ∈ insertKey b (sortedKeys t) ↔ _
    rw [mem_insertKey, ih, List.mem_cons]

theorem sortedKeys_nodup {α : Type} [LinearOrder α] (l : List α) :
    (sortedKeys l).Nodup :=
  (sortedKeys_pairwise l).imp ne_of_lt

theorem sum_map_ite_zero {κ : Type} [DecidableEq κ] (x : κ) (c : ℚ) (K : List κ)
    (hx : x ∉ K) : (K.map (fun key => if x = key then c else 0)).sum = 0 := by
  induction K with
  | nil => simp
  | cons k t ih =>
    simp only [List.mem_cons, not_or] at hx
    simp [hx.1, ih hx.2]

theorem sum_map_ite_eq {κ : Type} [DecidableEq κ] (x : κ) (c : ℚ) (K : List κ)
    (hnd : K.Nodup) (hx : x ∈ K) :
    (K.map (fun key => if x = key then c else 0)).sum = c := by
  induction K with
  | nil => cases hx
  | cons k t ih =>
    rcases List.nodup_cons.mp hnd with ⟨hk, hnd'⟩
    rcases List.mem_cons.mp hx with rfl | hx'
    · simp [sum_map_ite_zero x c t hk]
    · have hne : x ≠ k := fun he => hk (he ▸ hx')
      simp [hne, ih hnd' hx']

theorem sum_map_add {κ : Type} (f g : κ → ℚ) (K : List κ) :
    (K.map (fun x => f x + g x)).sum = (K.map f).sum + (K.map g).sum := by
  induction K with
  | nil => simp
  | cons k t ih => simp [ih]; ring

/-- Summing fiberwise over a duplicate-free covering key list recovers
the total: grouping does not lose or duplicate amounts. -/
theorem sum_fibers {α κ : Type} [DecidableEq κ] (k : α → κ) (v : α → ℚ)
    (l : List α) (K : List κ) (hnd : K.Nodup) (hmem : ∀ r ∈ l, k r ∈ K) :
    (K.map (fun key => ((l.filter (fun r => k r == key)).map v).sum)).sum =
      (l.map v).sum := by
  induction l with
  | nil => simp
  | cons a t ih =>
    have hstep : (fun key => ((List.filter (fun r => k r == key) (a :: t)).map v).sum) =
        (fun key => (if k a = key then v a else 0) +
          ((t.filter (fun r => k r == key)).map v).sum) := by
      funext key
      by_cases h : k a = key
      · simp [List.filter_cons, h]
      · simp [List.filter_cons, h]
    rw [hstep, sum_map_add, sum_map_ite_eq (k a) (v a) K hnd (hmem a (by simp)),
      ih (fun r hr => hmem r (by simp [hr]))]
    simp

/-! ## Loaded tables

Pandas DataFrames loaded from the backend are modelled as row lists
with table-level flags for the conditionally present columns the code
tests with `in df.columns`.  When a flag is false the corresponding row
field is meaningless and the code paths below never read it. -/

/-- A row of the `cobrancas` table as read by the aggregations. -/
structure CobRow where
  cliente_id : ℤ
  valor : ℚ
  status : String
deriving DecidableEq

/-- The loaded `cobrancas` DataFrame. -/
structure CobTable where
  hasValor : Bool
  hasStatus : Bool
  hasClienteId : Bool
  rows : List CobRow
deriving DecidableEq

/-- A row of the `clientes` table. -/
structure CliRow where
  id : ℤ
  nome : String
deriving DecidableEq

/-- The loaded `clientes` DataFrame. -/
structure CliTable where
  hasId : Bool
  hasNome : Bool
  rows : List CliRow
deriving DecidableEq

/-- A row of the result of `calcular_saldo_por_cliente`. -/
structure SaldoRow where
  cliente_id : Option ℤ
  cliente_nome : Option String
  saldo_pendente : ℚ
deriving DecidableEq

/-- The rows the code treats as pending: the `status == "pendente"`
filter, applied only when the status column exists. -/
def pendentes (co : CobTable) : List CobRow :=
  if co.hasStatus then co.rows.filter (fun r => r.status == "pendente") else co.rows

/-- `groupby("cliente_id")["valor"].sum()`: one `(key, sum)` row per
distinct customer id, keys ascending. -/
def agruparSoma (l : List CobRow) : List (ℤ × ℚ) :=
  (sortedKeys (l.map (·.cliente_id))).map
    (fun k => (k, ((l.filter (fun r => r.cliente_id == k)).map (·.valor)).sum))

/-- The left merge with `clientes[["id", "nome"]]`, performed only when
the customer table is non-empty and has both columns. -/
def mergeNomes (groups : List (ℤ × ℚ)) (cl : CliTable) : List SaldoRow :=
  if cl.rows.isEmpty || !cl.hasId || !cl.hasNome then
    groups.map (fun g => ⟨some g.1, none, g.2⟩)
  else
    groups.flatMap (fun g =>
      let ms := cl.rows.filter (fun c => c.id == g.1)
      if ms.isEmpty then [⟨some g.1, none, g.2⟩]
      else ms.map (fun c => ⟨some g.1, some c.nome, g.2⟩))

/-- `calcular_saldo_por_cliente` (src/app.py lines 92-119). -/
def calcular_saldo_por_cliente (co : CobTable) (cl : CliTable) : List SaldoRow :=
  if co.rows.isEmpty || !co.hasValor then []
  else
    let df := pendentes co
    if df.isEmpty then []
    else if !co.hasClienteId then
      [⟨none, none, (df.map (·.valor)).sum⟩]
    else
      mergeNomes (agruparSoma df) cl

/-- Total of the `saldo_pendente` column of a result. -/
def saldoTotal (l : List SaldoRow) : ℚ := (l.map (·.saldo_pendente)).sum

/-- The specification-side quantity: the sum of `valor` over the input
rows whose status is `pendente`. -/
def pendingSum (co : CobTable) : ℚ :=
  ((co.rows.filter (fun r => r.status == "pendente")).map (·.valor)).sum

/-! ## Monthly revenue (src/app.py lines 235-247, inside
`pagina_dashboard`)

Filters to `status == "pago"`, picks the first available date column of
`["data_pagamento", "data", "created_at"]`, buckets by calendar month
(`dt.to_period("M")`), sums `valor` per bucket and sorts by month.
Date cells are carried as `Date` values; a month bucket is identified
by its linear month number. -/

/-- A row of the `cobrancas` table as read by the revenue chart. -/
structure RecRow where
  status : String
  valor : ℚ
  data_pagamento : Date
  data : Date
  created_at : Date
deriving DecidableEq

/-- The loaded DataFrame as seen by the revenue chart. -/
structure RecTable where
  hasStatus : Bool
  hasDataPagamento : Bool
  hasData : Bool
  hasCreatedAt : Bool
  rows : List RecRow
deriving DecidableEq

/-- Linear month number of a date (`to_period("M")`). -/
def mesKey (d : Date) : ℕ := 12 * d.year + d.month

/-- `next(c for c in ["data_pagamento", "data", "created_at"] if c in
df.columns)`: the first available date column. -/
def colunaData (t : RecTable) : Option (RecRow → Date) :=
  if t.hasDataPagamento then some (fun r => r.data_pagamento)
  else if t.hasData then some (fun r => r.data)
  else if t.hasCreatedAt then some (fun r => r.created_at)
  else none

/-- The paid rows (`status == "pago"` filter, applied only when the
status column exists). -/
def pagosDe (t : RecTable) : List RecRow :=
  if t.hasStatus then t.rows.filter (fun r => r.status == "pago") else t.rows

/-- The monthly revenue buckets: `none` on the early-return paths (no
paid rows, or no date column), otherwise `(month, total)` pairs sorted
by month. -/
def receitas_por_mes (t : RecTable) : Option (List (ℕ × ℚ)) :=
  let pagos := pagosDe t
  match colunaData t with
  | none => none
  | some col =>
    if pagos.isEmpty then none
    else
      some ((sortedKeys (pagos.map (fun r => mesKey (col r)))).map
        (fun k => (k, ((pagos.filter (fun r => mesKey (col r) == k)).map (·.valor)).sum)))

/-! ## Page handler effect model

Each submit handler is embedded as a pure function from its form inputs
and a backend oracle to an `Outcome`: the ordered list of backend calls
it attempts, plus the user-visible message flags.  The oracle says
which calls raise (`fails i` for the i-th call of a `try` block,
`readFails`/`insertFails` for single calls); a raising call aborts the
rest of its `try` block, reaching `except` (`errored`), while a raising
call outside any `try` propagates (`uncaught`). -/

/-- A row of the dict list passed to `table("cobrancas").insert(...)`. -/
structure CobInsert where
  cliente_id : ℤ
  valor : ℚ
  vencimento : ℕ
  descricao : Option (List Char)
  status : String
deriving DecidableEq

/-- The settlement update dict: status plus an optional
`data_pagamento` timestamp (absent in the degraded fallback). -/
structure BaixaPayload where
  status : String
  data_pagamento : Option (List Char)
deriving DecidableEq

/-- A backend call. -/
inductive Op
  | selectClientes
  | selectCobrancas
  | insertCliente (nome : List Char) (documento email telefone : Option (List Char))
  | insertCobrancas (rows : List CobInsert)
  | upload (path : List Char)
  | updateArquivoUrl (id : ℤ) (url : List Char)
  | updateBaixa (id : ℤ) (p : BaixaPayload)
deriving DecidableEq

/-- Whether a call writes (insert/update/upload, as opposed to select). -/
def opEscrita : Op → Bool
  | Op.selectClientes => false
  | Op.selectCobrancas => false
  | _ => true

/-- Result of running a handler: attempted backend calls in order and
the message flags. -/
structure Outcome where
  ops : List Op
  warned : Bool
  errored : Bool
  uncaught : Bool
deriving DecidableEq

/-- Attempt a call sequence inside one `try` block: calls run in order,
the first raising call (per the oracle) is attempted and aborts the
rest. -/
def runSeqFrom (fails : ℕ → Bool) : ℕ → List Op → List Op × Bool
  | _, [] => ([], true)
  | i, op :: rest =>
    if fails i then ([op], false)
    else
      let p := runSeqFrom fails (i + 1) rest
      (op :: p.1, p.2)

def runSeq (fails : ℕ → Bool) (l : List Op) : List Op × Bool := runSeqFrom fails 0 l

/-- Modelled from the spec: the object store's `get_public_url(path)`
(an opaque external collaborator, §6) returns a public URL determined
by the path; it is modelled as the path itself. -/
def get_public_url (path : List Char) : List Char := path

/-- `f"{primeiro_id}/global_{ts}_{name}"`. -/
def pathGlobal (id : ℤ) (now f : List Char) : List Char :=
  (toString id).toList ++ '/' :: ("global_".toList ++ now ++ '_' :: f)

/-- `f"{cobranca_id}/indiv_{ts}_{name}"`. -/
def pathIndiv (id : ℤ) (now f : List Char) : List Char :=
  (toString id).toList ++ '/' :: ("indiv_".toList ++ now ++ '_' :: f)

/-- `f"{id_boleto}/{ts}_{name}"` (edit flow). -/
def pathEdit (id : ℤ) (now f : List Char) : List Char :=
  (toString id).toList ++ '/' :: (now ++ '_' :: f)

/-- One manual installment of the issuance form. -/
structure Parcela where
  valor : ℚ
  venc : Date
  arquivo : Option (List Char)

/-- The three issuance modes of `pagina_lancar_cobranca`. -/
inductive ModoLancamento
  | unico (valor : ℚ) (venc : Date)
  | parceladoAuto (valor : ℚ) (data1 : Date) (qtd : ℕ) (tipo : TipoIntervalo) (pular : Bool)
  | parceladoManual (parcelas : List Parcela)

/-- The issuance form's submitted state. -/
structure LancarInput where
  cliente_id : ℤ
  descricao : List Char
  modo : ModoLancamento
  arquivo_global : Option (List Char)
  now : List Char

/-- The validation rejections: `valor_base <= 0` (single and auto) and
`any(p["valor"] <= 0 ...)` (manual). -/
def validacaoFalha (inp : LancarInput) : Bool :=
  match inp.modo with
  | ModoLancamento.unico v _ => decide (v ≤ 0)
  | ModoLancamento.parceladoAuto v _ _ _ _ => decide (v ≤ 0)
  | ModoLancamento.parceladoManual ps => ps.any (fun p => decide (p.valor ≤ 0))

/-- The `payload_list` built by the submit handler
(src/app.py lines 397-440). -/
def montarPayload (inp : LancarInput) (H : List ℕ) : List CobInsert :=
  match inp.modo with
  | ModoLancamento.unico v d =>
    [⟨inp.cliente_id, v, toDays d,
      if inp.descricao.isEmpty then none else some inp.descricao, "pendente"⟩]
  | ModoLancamento.parceladoAuto v d1 qtd tipo pular =>
    (List.range qtd).map (fun i =>
      ⟨inp.cliente_id, v, vencParcela H pular tipo d1 i,
        some (descFinal inp.descricao (i + 1) qtd), "pendente"⟩)
  | ModoLancamento.parceladoManual ps =>
    ps.enum.map (fun q =>
      ⟨inp.cliente_id, q.2.valor, toDays q.2.venc,
        some (descFinal inp.descricao (q.1 + 1) ps.length), "pendente"⟩)

/-- `url_global` when set: the public URL of the global attachment
uploaded under the first inserted id. -/
def urlGlobal (inp : LancarInput) (id1 : ℤ) : Option (List Char) :=
  inp.arquivo_global.map (fun f => get_public_url (pathGlobal id1 inp.now f))

/-- The per-inserted-row calls of the loop over `dados_inseridos`:
manual installments with their own attachment upload it and patch the
URL; otherwise the global URL (when any) is patched. -/
def opsPorLinha (inp : LancarInput) (i : ℕ) (cid : ℤ) (ug : Option (List Char)) : List Op :=
  match inp.modo with
  | ModoLancamento.parceladoManual ps =>
    match (ps.get? i).bind (fun p => p.arquivo) with
    | some f =>
      [Op.upload (pathIndiv cid inp.now f),
       Op.updateArquivoUrl cid (get_public_url (pathIndiv cid inp.now f))]
    | none =>
      match ug with
      | some u => [Op.updateArquivoUrl cid u]
      | none => []
  | _ =>
    match ug with
    | some u => [Op.updateArquivoUrl cid u]
    | none => []

/-- The calls of the submit handler's `try` block, given the ids the
batch insert returns: the insert, then (when rows came back) the global
upload and the per-row uploads/URL patches. -/
def opsTry (inp : LancarInput) (H : List ℕ) (ids : List ℤ) : List Op :=
  Op.insertCobrancas (montarPayload inp H) ::
  match ids with
  | [] => []
  | id1 :: _ =>
    (match inp.arquivo_global with
     | none => []
     | some f => [Op.upload (pathGlobal id1 inp.now f)]) ++
    (ids.enum.flatMap (fun q => opsPorLinha inp q.1 q.2 (urlGlobal inp id1)))

/-- `pagina_lancar_cobranca` (src/app.py lines 298-478): the initial
`carregar_clientes` read (unguarded by any `try`), the empty-customers
early return, validation, then the guarded `try` block. -/
def pagina_lancar_run (inp : LancarInput) (H : List ℕ) (clientesVazio readFails : Bool)
    (fails : ℕ → Bool) (ids : List ℤ) : Outcome :=
  if readFails then ⟨[Op.selectClientes], false, false, true⟩
  else if clientesVazio then ⟨[Op.selectClientes], false, false, false⟩
  else if validacaoFalha inp then ⟨[Op.selectClientes], true, false, false⟩
  else
    let p := runSeq fails (opsTry inp H ids)
    ⟨Op.selectClientes :: p.1, false, !p.2, false⟩

/-- `pagina_cadastrar_cliente` (src/app.py lines 258-295): empty-name
validation, then a single guarded insert (`documento or None` etc.). -/
def pagina_cadastrar_run (nome documento email telefone : List Char)
    (insertFails : Bool) : Outcome :=
  if nome.isEmpty then ⟨[], true, false, false⟩
  else
    ⟨[Op.insertCliente nome
        (if documento.isEmpty then none else some documento)
        (if email.isEmpty then none else some email)
        (if telefone.isEmpty then none else some telefone)],
      false, insertFails, false⟩

/-- A stored invoice row, as affected by the edit flow's update. -/
structure Cobranca where
  cliente_id : ℤ
  valor : ℚ
  vencimento : ℕ
  descricao : Option (List Char)
  status : String
  arquivo_url : Option (List Char)
deriving DecidableEq

/-- The edit flow's update dict; `arquivo_url = none` means the key is
absent from the dict (no new file was uploaded). -/
structure EditPayload where
  cliente_id : ℤ
  valor : ℚ
  vencimento : ℕ
  descricao : Option (List Char)
  status : String
  arquivo_url : Option (List Char)
deriving DecidableEq

/-- The `payload` built by `pagina_editar_cobranca` on submit
(src/app.py lines 541-558): all scalar fields always, `arquivo_url`
only when a replacement file was supplied (after uploading it). -/
def montarEditPayload (cid : ℤ) (v : ℚ) (venc : ℕ) (desc : List Char) (status : String)
    (arquivo : Option (List Char)) (idBoleto : ℤ) (now : List Char) : EditPayload :=
  { cliente_id := cid, valor := v, vencimento := venc,
    descricao := if (pyStrip desc).isEmpty then none else some desc,
    status := status,
    arquivo_url := arquivo.map (fun f => get_public_url (pathEdit idBoleto now f)) }

/-- Backend `update(payload).eq("id", ...)` semantics on one row: keys
present in the dict overwrite, absent keys leave the column unchanged. -/
def applyEditUpdate (inv : Cobranca) (p : EditPayload) : Cobranca :=
  { cliente_id := p.cliente_id, valor := p.valor, vencimento := p.vencimento,
    descricao := p.descricao, status := p.status,
    arquivo_url := match p.arquivo_url with
      | some u => some u
      | none => inv.arquivo_url }

/-- The settlement submit handler of `pagina_baixar_boletos`
(src/app.py lines 623-639): a full update (status + payment timestamp),
and only if it raises, one fallback update with only the status. -/
def pagina_baixar_submit (id : ℤ) (acaoPago : Bool) (now : List Char)
    (fail1 fail2 : Bool) : Outcome :=
  let novo := if acaoPago then "pago" else "baixado"
  let full : BaixaPayload := ⟨novo, some now⟩
  let soStatus : BaixaPayload := ⟨novo, none⟩
  if fail1 then
    if fail2 then ⟨[Op.updateBaixa id full, Op.updateBaixa id soStatus], false, true, false⟩
    else ⟨[Op.updateBaixa id full, Op.updateBaixa id soStatus], false, false, false⟩
  else ⟨[Op.updateBaixa id full], false, false, false⟩

theorem runSeqFrom_ok (fails : ℕ → Bool) :
    ∀ (l : List Op) (i : ℕ), (∀ j, j < l.length → fails (i + j) = false) →
    runSeqFrom fails i l = (l, true) := by
  intro l
  induction l with
  | nil => intro i _; rfl
  | cons op rest ih =>
    intro i h
    have h0 : fails i = false := by simpa using h 0 (by simp)
    have hrest := ih (i + 1) (fun j hj => by
      have h' := h (j + 1) (by simpa using Nat.succ_lt_succ hj)
      have e : i + (j + 1) = i + 1 + j := by omega
      rw [e] at h'
      exact h')
    simp [runSeqFrom, h0, hrest]

theorem runSeqFrom_fail (fails : ℕ → Bool) :
    ∀ (l : List Op) (j i : ℕ), j < l.length → fails (i + j) = true →
    (∀ m, m < j → fails (i + m) = false) →
    runSeqFrom fails i l = (l.take (j + 1), false) := by
  intro l
  induction l with
  | nil => intro j i hj _ _; simp at hj
  | cons op rest ih =>
    intro j i hj hfj hmin
    cases j with
    | zero =>
      simp only [Nat.add_zero] at hfj
      simp [runSeqFrom, hfj]
    | succ j' =>
      have h0 : fails i = false := by simpa using hmin 0 (by omega)
      have hrest := ih j' (i + 1) (by simpa using hj)
        (by have : i + 1 + j' = i + (j' + 1) := by omega
            rw [this]; exact hfj)
        (fun m hm => by
          have : i + 1 + m = i + (m + 1) := by omega
          rw [this]; exact hmin (m + 1) (by omega))
      simp [runSeqFrom, h0, hrest]

/-! ## Claims -/

/-- C1: for every valid start date, installment count ≥ 2 and interval
policy (monthly-same-day or fixed N-day stride), the scheduler produces
exactly `count` due dates in non-decreasing order, and with
business-day skipping enabled no produced date falls on a Saturday or
Sunday. -/
theorem C1_scheduler (H : List ℕ) (pular : Bool) (tipo : TipoIntervalo) (d1 : Date)
    (qtd : ℕ) (hv : d1.Valid) (hq : 2 ≤ qtd) :
    (vencimentos H pular tipo d1 qtd).length = qtd ∧
    (vencimentos H pular tipo d1 qtd).Pairwise (· ≤ ·) ∧
    (pular = true → ∀ x ∈ vencimentos H pular tipo d1 qtd, weekday x < 5) := by
  obtain ⟨hm1, hm2, hd1, hd2⟩ := hv
  refine ⟨by simp [vencimentos], ?_, ?_⟩
  · have hmono : Monotone (vencParcela H pular tipo d1) :=
      monotone_nat_of_le_succ (vencParcela_mono H pular tipo d1 hd1)
    unfold vencimentos
    rw [List.pairwise_map]
    exact (List.pairwise_lt_range qtd).imp (fun h => hmono (le_of_lt h))
  · intro hp x hx
    subst hp
    unfold vencimentos at hx
    rcases List.mem_map.mp hx with ⟨i, _, rfl⟩
    have hgood : ¬ diaRuim H (vencParcela H true tipo d1 i) := by
      cases tipo with
      | mensal => exact bom_ajustar H (toDays (addMonths d1 i))
      | personalizado dias => exact bom_ajustar H (toDays d1 + dias * i)
    unfold diaRuim at hgood
    push_neg at hgood
    exact hgood.1

/-- Witness for C1 at a concrete input: 3 monthly installments from
2024-01-15 with weekend/holiday skipping on. -/
theorem C1_scheduler_witness :
    (vencimentos [] true TipoIntervalo.mensal ⟨2024, 1, 15⟩ 3).length = 3 ∧
    (vencimentos [] true TipoIntervalo.mensal ⟨2024, 1, 15⟩ 3).Pairwise (· ≤ ·) ∧
    (true = true → ∀ x ∈ vencimentos [] true TipoIntervalo.mensal ⟨2024, 1, 15⟩ 3,
      weekday x < 5) :=
  C1_scheduler [] true TipoIntervalo.mensal ⟨2024, 1, 15⟩ 3 (by decide) (by decide)

/-- C2: for every holiday list and input day, the adjustment loop
terminates: there is a finite number `n` of iterations after which the
loop's guard fails for the first time, and `ajustar_dia_util` returns
that day. -/
theorem C2_ajuste_termina (H : List ℕ) (d : ℕ) :
    ∃ n : ℕ, ajustar_dia_util H d = d + n ∧ ¬ diaRuim H (d + n) ∧
      ∀ m, m < n → diaRuim H (d + m) := by
  refine ⟨Nat.find (existe_bom H d), ajustar_dia_util_spec H d,
    Nat.find_spec (existe_bom H d), ?_⟩
  intro m hm
  have := Nat.find_min (existe_bom H d) hm
  simpa using this

/-- C10: the business-day adjustment is inflationary, monotone and
idempotent. -/
theorem C10_ajuste_ordem (H : List ℕ) (d e : ℕ) :
    d ≤ ajustar_dia_util H d ∧
    (d ≤ e → ajustar_dia_util H d ≤ ajustar_dia_util H e) ∧
    ajustar_dia_util H (ajustar_dia_util H d) = ajustar_dia_util H d :=
  ⟨le_ajustar H d, fun h => ajustar_mono h, ajustar_idem H d⟩

/-- Witness for C10 at a concrete input. -/
theorem C10_ajuste_ordem_witness :
    0 ≤ ajustar_dia_util [] 0 ∧ ajustar_dia_util [] 0 ≤ ajustar_dia_util [] 5 ∧
    ajustar_dia_util [] (ajustar_dia_util [] 0) = ajustar_dia_util [] 0 := by
  have h := C10_ajuste_ordem [] 0 5
  exact ⟨h.1, h.2.1 (by decide), h.2.2⟩

/-- C5: in all three issuance modes, a non-positive entered amount
makes the submit handler warn and attempt no backend write at all. -/
theorem C5_validacao_sem_escrita (inp : LancarInput) (H : List ℕ) (fails : ℕ → Bool)
    (ids : List ℤ) (h : validacaoFalha inp = true) :
    (pagina_lancar_run inp H false false fails ids).warned = true ∧
    (pagina_lancar_run inp H false false fails ids).ops.filter opEscrita = [] := by
  unfold pagina_lancar_run
  simp [h, opEscrita]

/-- Witness for C5 at a concrete input: a single invoice with amount 0. -/
theorem C5_validacao_sem_escrita_witness :
    (pagina_lancar_run ⟨1, [], ModoLancamento.unico 0 ⟨2024, 1, 15⟩, none, []⟩
      [] false false (fun _ => false) []).warned = true ∧
    (pagina_lancar_run ⟨1, [], ModoLancamento.unico 0 ⟨2024, 1, 15⟩, none, []⟩
      [] false false (fun _ => false) []).ops.filter opEscrita = [] :=
  C5_validacao_sem_escrita _ [] (fun _ => false) [] (by decide)

/-- C6: an auto-filled parceled plan of `n` installments of amount `v`
builds exactly `n` invoice rows, each with amount `v`, status
`pendente`, a description suffixed `(Parcela j+1/n)`, and (monthly
policy, skipping off) due date exactly `j` months after the start. -/
theorem C6_parcelado_auto (cid : ℤ) (desc : List Char) (ag : Option (List Char))
    (now : List Char) (v : ℚ) (d1 : Date) (n : ℕ) (H : List ℕ) (j : ℕ) (hj : j < n) :
    (montarPayload ⟨cid, desc, ModoLancamento.parceladoAuto v d1 n TipoIntervalo.mensal false,
        ag, now⟩ H).length = n ∧
    ∃ el : CobInsert,
      (montarPayload ⟨cid, desc, ModoLancamento.parceladoAuto v d1 n TipoIntervalo.mensal false,
          ag, now⟩ H).get? j = some el ∧
      el.valor = v ∧ el.status = "pendente" ∧
      el.vencimento = toDays (addMonths d1 j) ∧
      ∃ dtexto, el.descricao = some dtexto ∧ parcelaTag (j + 1) n <:+ dtexto := by
  constructor
  · simp [montarPayload]
  · refine ⟨⟨cid, v, vencParcela H false TipoIntervalo.mensal d1 j,
      some (descFinal desc (j + 1) n), "pendente"⟩, ?_, rfl, rfl, rfl,
      descFinal desc (j + 1) n, rfl, parcelaTag_suffix_descFinal desc (j + 1) n⟩
    simp only [montarPayload, List.get?_map]
    rw [List.get?_range hj]
    rfl

/-- Witness for C6 at a concrete input: installment 2 of 3. -/
theorem C6_parcelado_auto_witness :
    (montarPayload ⟨7, [], ModoLancamento.parceladoAuto 100 ⟨2024, 1, 15⟩ 3
        TipoIntervalo.mensal false, none, []⟩ []).length = 3 ∧
    ∃ el : CobInsert,
      (montarPayload ⟨7, [], ModoLancamento.parceladoAuto 100 ⟨2024, 1, 15⟩ 3
          TipoIntervalo.mensal false, none, []⟩ []).get? 1 = some el ∧
      el.valor = 100 ∧ el.status = "pendente" ∧
      el.vencimento = toDays (addMonths ⟨2024, 1, 15⟩ 1) ∧
      ∃ dtexto, el.descricao = some dtexto ∧ parcelaTag 2 3 <:+ dtexto :=
  C6_parcelado_auto 7 [] none [] 100 ⟨2024, 1, 15⟩ 3 [] 1 (by decide)

/-- C7: the edit-invoice update always overwrites customer, amount, due
date, status and description; the attachment URL is left out of the
payload (hence unchanged by the update) when no file is supplied, and
overwritten with the new upload's URL when one is. -/
theorem C7_editar_anexo (inv : Cobranca) (cid : ℤ) (v : ℚ) (venc : ℕ)
    (desc : List Char) (status : String) (idB : ℤ) (now : List Char) :
    (montarEditPayload cid v venc desc status none idB now).arquivo_url = none ∧
    applyEditUpdate inv (montarEditPayload cid v venc desc status none idB now) =
      { cliente_id := cid, valor := v, vencimento := venc,
        descricao := if (pyStrip desc).isEmpty then none else some desc,
        status := status, arquivo_url := inv.arquivo_url } ∧
    ∀ f, (applyEditUpdate inv
        (montarEditPayload cid v venc desc status (some f) idB now)).arquivo_url =
      some (get_public_url (pathEdit idB now f)) :=
  ⟨rfl, rfl, fun _ => rfl⟩

/-- C8: the settlement submit always issues the full update (status and
payment timestamp); exactly when it fails, exactly one fallback update
with only the status follows; nothing propagates uncaught. -/
theorem C8_baixa_fallback (id : ℤ) (acaoPago : Bool) (now : List Char)
    (fail1 fail2 : Bool) :
    (pagina_baixar_submit id acaoPago now fail1 fail2).ops =
      (if fail1 then
        [Op.updateBaixa id ⟨if acaoPago then "pago" else "baixado", some now⟩,
         Op.updateBaixa id ⟨if acaoPago then "pago" else "baixado", none⟩]
       else [Op.updateBaixa id ⟨if acaoPago then "pago" else "baixado", some now⟩]) ∧
    (pagina_baixar_submit id acaoPago now fail1 fail2).uncaught = false ∧
    (pagina_baixar_submit id acaoPago now fail1 fail2).errored = (fail1 && fail2) := by
  unfold pagina_baixar_submit
  cases fail1 <;> cases fail2 <;> simp

/-- With duplicate-free customer ids, an id filter catches at most one
customer row. -/
theorem filter_id_nodup (g : ℤ) :
    ∀ L : List CliRow, (L.map (·.id)).Nodup →
    L.filter (fun c => c.id == g) = [] ∨ ∃ c, L.filter (fun c => c.id == g) = [c] := by
  intro L
  induction L with
  | nil => intro _; left; rfl
  | cons a t ih =>
    intro hnd
    rw [List.map_cons, List.nodup_cons] at hnd
    obtain ⟨ha, hnd'⟩ := hnd
    by_cases h : a.id = g
    · right
      refine ⟨a, ?_⟩
      rw [List.filter_cons, if_pos (by simp [h])]
      have ht : t.filter (fun c => c.id == g) = [] := by
        rw [List.filter_eq_nil_iff]
        intro c hc
        simp only [beq_iff_eq]
        intro hcg
        exact ha (List.mem_map.mpr ⟨c, hc, by rw [hcg, h]⟩)
      rw [ht]
    · rw [List.filter_cons, if_neg (by simp [h])]
      exact ih hnd'

/-- The left merge with a duplicate-free customer table preserves the
total of the grouped sums. -/
theorem mergeNomes_sum (cl : CliTable) (hnd : (cl.rows.map (·.id)).Nodup)
    (groups : List (ℤ × ℚ)) :
    saldoTotal (mergeNomes groups cl) = (groups.map (·.2)).sum := by
  unfold mergeNomes
  split
  · unfold saldoTotal
    rw [List.map_map]
    rfl
  · induction groups with
    | nil => rfl
    | cons g gs ih =>
      rw [List.flatMap_cons]
      unfold saldoTotal at *
      rw [List.map_append, List.sum_append, List.map_cons, List.sum_cons, ih]
      congr 1
      rcases filter_id_nodup g.1 cl.rows hnd with hf | ⟨c, hf⟩
      · simp [hf]
      · simp [hf]

/-- Grouping by customer id preserves the total. -/
theorem agruparSoma_sum (l : List CobRow) :
    ((agruparSoma l).map (·.2)).sum = (l.map (·.valor)).sum := by
  unfold agruparSoma
  rw [List.map_map]
  exact sum_fibers (fun r => r.cliente_id) (fun r => r.valor) l _ (sortedKeys_nodup _)
    (fun r hr => (mem_sortedKeys _ _).mpr (List.mem_map.mpr ⟨r, hr, rfl⟩))

/-- C3 fails as stated: with a duplicated customer id in the customer
table, the left merge duplicates the group row and the totals diverge
(10 against the pending total 5). -/
theorem C3_saldo_counterexample :
    saldoTotal (calcular_saldo_por_cliente
        ⟨true, true, true, [⟨1, 5, "pendente"⟩]⟩
        ⟨true, true, [⟨1, "a"⟩, ⟨1, "b"⟩]⟩) ≠
      pendingSum ⟨true, true, true, [⟨1, 5, "pendente"⟩]⟩ := by
  norm_num [calcular_saldo_por_cliente, pendentes, agruparSoma, mergeNomes,
    sortedKeys, insertKey, saldoTotal, pendingSum]

/-- C3 (amended): when the invoice table has its `valor` and `status`
columns and the customer table's ids are duplicate-free, the total of
`saldo_pendente` equals the total of `valor` over rows with status
`pendente`; when the customer-reference column is missing entirely and
pending rows exist, the result is the single synthetic row with a null
customer summing all pending amounts. -/
theorem C3_saldo_corrigido (co : CobTable) (cl : CliTable) (hv : co.hasValor = true)
    (hs : co.hasStatus = true) (hnd : (cl.rows.map (·.id)).Nodup) :
    saldoTotal (calcular_saldo_por_cliente co cl) = pendingSum co ∧
    (co.hasClienteId = false → co.rows.isEmpty = false → (pendentes co).isEmpty = false →
      calcular_saldo_por_cliente co cl = [⟨none, none, pendingSum co⟩]) := by
  have hps : pendingSum co = ((pendentes co).map (·.valor)).sum := by
    unfold pendingSum pendentes
    rw [hs]
    simp
  constructor
  · by_cases h1 : co.rows.isEmpty
    · have h0 : co.rows = [] := List.isEmpty_iff.mp h1
      simp [calcular_saldo_por_cliente, h1, saldoTotal, pendingSum, h0]
    · by_cases h2 : (pendentes co).isEmpty
      · have h0 : (pendentes co) = [] := List.isEmpty_iff.mp h2
        rw [Bool.not_eq_true] at h1
        simp only [calcular_saldo_por_cliente, h1, hv, Bool.not_true, Bool.or_false,
          Bool.false_eq_true, if_false, h2, if_true]
        rw [hps, h0]
        simp [saldoTotal]
      · rw [Bool.not_eq_true] at h1 h2
        by_cases h3 : co.hasClienteId
        · have he : calcular_saldo_por_cliente co cl =
              mergeNomes (agruparSoma (pendentes co)) cl := by
            simp [calcular_saldo_por_cliente, h1, hv, h2, h3]
          rw [he, mergeNomes_sum cl hnd, hps]
          exact agruparSoma_sum (pendentes co)
        · rw [Bool.not_eq_true] at h3
          simp [calcular_saldo_por_cliente, h1, hv, h2, h3, saldoTotal, hps]
  · intro h3 h1 h2
    simp [calcular_saldo_por_cliente, h1, hv, h2, h3, hps]

/-- Witness for the amended C3 at a concrete input: a pending row in a
table without the customer-reference column. -/
theorem C3_saldo_corrigido_witness :
    saldoTotal (calcular_saldo_por_cliente ⟨true, true, false, [⟨1, 5, "pendente"⟩]⟩
        ⟨true, true, []⟩) =
      pendingSum ⟨true, true, false, [⟨1, 5, "pendente"⟩]⟩ ∧
    calcular_saldo_por_cliente ⟨true, true, false, [⟨1, 5, "pendente"⟩]⟩ ⟨true, true, []⟩ =
      [⟨none, none, pendingSum ⟨true, true, false, [⟨1, 5, "pendente"⟩]⟩⟩] := by
  have h := C3_saldo_corrigido ⟨true, true, false, [⟨1, 5, "pendente"⟩]⟩ ⟨true, true, []⟩
    rfl rfl (by decide)
  exact ⟨h.1, h.2 rfl (by decide) (by decide)⟩

/-- C4: whenever the monthly revenue computation returns buckets, their
month keys are strictly increasing (hence duplicate-free), each
bucket's total is the sum of `valor` over the paid rows of that month
of the first available date column, and every paid row lands in some
bucket. -/
theorem C4_receitas_mensais (t : RecTable) (bs : List (ℕ × ℚ))
    (h : receitas_por_mes t = some bs) :
    (bs.map Prod.fst).Pairwise (· < ·) ∧ (bs.map Prod.fst).Nodup ∧
    ∃ col, colunaData t = some col ∧
      (∀ p ∈ bs,
        p.2 = (((pagosDe t).filter (fun r => mesKey (col r) == p.1)).map (·.valor)).sum) ∧
      (∀ r ∈ pagosDe t, mesKey (col r) ∈ bs.map Prod.fst) := by
  unfold receitas_por_mes at h
  cases hcol : colunaData t with
  | none => rw [hcol] at h; simp at h
  | some col =>
    rw [hcol] at h
    dsimp only at h
    by_cases hemp : (pagosDe t).isEmpty
    · rw [if_pos hemp] at h
      simp at h
    · rw [if_neg hemp] at h
      have hbs : bs = (sortedKeys ((pagosDe t).map (fun r => mesKey (col r)))).map
          (fun k => (k,
            (((pagosDe t).filter (fun r => mesKey (col r) == k)).map (·.valor)).sum)) :=
        (Option.some.inj h).symm
      subst hbs
      have hmapfst : ((sortedKeys ((pagosDe t).map (fun r => mesKey (col r)))).map
          (fun k => (k,
            (((pagosDe t).filter (fun r => mesKey (col r) == k)).map (·.valor)).sum))).map
          Prod.fst = sortedKeys ((pagosDe t).map (fun r => mesKey (col r))) := by
        rw [List.map_map]
        show List.map (fun k => k) (sortedKeys ((pagosDe t).map (fun r => mesKey (col r)))) =
          sortedKeys ((pagosDe t).map (fun r => mesKey (col r)))
        exact List.map_id' _
      refine ⟨?_, ?_, col, rfl, ?_, ?_⟩
      · rw [hmapfst]; exact sortedKeys_pairwise _
      · rw [hmapfst]; exact sortedKeys_nodup _
      · intro p hp
        rcases List.mem_map.mp hp with ⟨k, _, rfl⟩
        rfl
      · intro r hr
        rw [hmapfst, mem_sortedKeys]
        exact List.mem_map.mpr ⟨r, hr, rfl⟩

/-- Witness for C4 at a concrete input: two paid rows in reverse month
order get sorted, strictly increasing buckets. -/
theorem C4_receitas_mensais_witness :
    (([(24291, (4 : ℚ)), (24293, 3)].map Prod.fst).Pairwise (· < ·) ∧
     ([(24291, (4 : ℚ)), (24293, 3)].map Prod.fst).Nodup ∧
     ∃ col, colunaData ⟨true, true, false, false,
        [⟨"pago", 3, ⟨2024, 5, 1⟩, ⟨2024, 5, 1⟩, ⟨2024, 5, 1⟩⟩,
         ⟨"pago", 4, ⟨2024, 3, 2⟩, ⟨2024, 3, 2⟩, ⟨2024, 3, 2⟩⟩]⟩ = some col ∧
      (∀ p ∈ [(24291, (4 : ℚ)), (24293, 3)],
        p.2 = (((pagosDe ⟨true, true, false, false,
          [⟨"pago", 3, ⟨2024, 5, 1⟩, ⟨2024, 5, 1⟩, ⟨2024, 5, 1⟩⟩,
           ⟨"pago", 4, ⟨2024, 3, 2⟩, ⟨2024, 3, 2⟩, ⟨2024, 3, 2⟩⟩]⟩).filter
            (fun r => mesKey (col r) == p.1)).map (·.valor)).sum) ∧
      (∀ r ∈ pagosDe ⟨true, true, false, false,
          [⟨"pago", 3, ⟨2024, 5, 1⟩, ⟨2024, 5, 1⟩, ⟨2024, 5, 1⟩⟩,
           ⟨"pago", 4, ⟨2024, 3, 2⟩, ⟨2024, 3, 2⟩, ⟨2024, 3, 2⟩⟩]⟩,
        mesKey (col r) ∈ [(24291, (4 : ℚ)), (24293, 3)].map Prod.fst)) :=
  C4_receitas_mensais
    ⟨true, true, false, false,
      [⟨"pago", 3, ⟨2024, 5, 1⟩, ⟨2024, 5, 1⟩, ⟨2024, 5, 1⟩⟩,
       ⟨"pago", 4, ⟨2024, 3, 2⟩, ⟨2024, 3, 2⟩, ⟨2024, 3, 2⟩⟩]⟩
    [(24291, 4), (24293, 3)]
    (by norm_num [receitas_por_mes, pagosDe, colunaData, sortedKeys, insertKey, mesKey])

/-- The issuance form submit state used by the C9 analysis: a plain
single invoice of amount 10. -/
def inpC9 : LancarInput := ⟨1, [], ModoLancamento.unico 10 ⟨2024, 1, 15⟩, none, []⟩

/-- C9 fails as stated: a backend failure of the `carregar_clientes`
table read in `pagina_lancar_cobranca` is not caught at the point of
the call — no inline error message is produced and the exception
propagates out of the handler. -/
theorem C9_erros_counterexample :
    (pagina_lancar_run inpC9 [] false true (fun _ => false) []).errored = false ∧
    (pagina_lancar_run inpC9 [] false true (fun _ => false) []).uncaught = true :=
  ⟨rfl, rfl⟩

/-- C9 (amended): backend failures of the write calls inside the
handlers' `try` blocks are caught at the point of the call, surface an
inline error, and no further program-initiated write happens while
handling the error; but table-read failures (which happen outside any
`try`) propagate uncaught, having performed no write. -/
theorem C9_erros_corrigido :
    (∀ (inp : LancarInput) (H : List ℕ) (cv : Bool) (fails : ℕ → Bool) (ids : List ℤ),
      pagina_lancar_run inp H cv true fails ids =
        ⟨[Op.selectClientes], false, false, true⟩) ∧
    (∀ (inp : LancarInput) (H : List ℕ) (cv : Bool) (fails : ℕ → Bool) (ids : List ℤ),
      (pagina_lancar_run inp H cv false fails ids).uncaught = false) ∧
    (∀ (inp : LancarInput) (H : List ℕ) (fails : ℕ → Bool) (ids : List ℤ) (j : ℕ),
      validacaoFalha inp = false → j < (opsTry inp H ids).length →
      fails j = true → (∀ m, m < j → fails m = false) →
      pagina_lancar_run inp H false false fails ids =
        ⟨Op.selectClientes :: (opsTry inp H ids).take (j + 1), false, true, false⟩) ∧
    (∀ nome documento email telefone : List Char, nome.isEmpty = false →
      pagina_cadastrar_run nome documento email telefone true =
        ⟨[Op.insertCliente nome
            (if documento.isEmpty then none else some documento)
            (if email.isEmpty then none else some email)
            (if telefone.isEmpty then none else some telefone)], false, true, false⟩) := by
  refine ⟨fun inp H cv fails ids => rfl, ?_, ?_, ?_⟩
  · intro inp H cv fails ids
    by_cases hcv : cv = true
    · simp [pagina_lancar_run, hcv]
    · by_cases hval : validacaoFalha inp = true
      · simp [pagina_lancar_run, hcv, hval]
      · simp [pagina_lancar_run, hcv, hval]
  · intro inp H fails ids j hval hj hfj hmin
    have hrun : runSeq fails (opsTry inp H ids) = ((opsTry inp H ids).take (j + 1), false) := by
      unfold runSeq
      exact runSeqFrom_fail fails (opsTry inp H ids) j 0 hj (by simpa using hfj)
        (fun m hm => by simpa using hmin m hm)
    simp [pagina_lancar_run, hval, hrun]
  · intro nome documento email telefone hnome
    simp [pagina_cadastrar_run, hnome]

/-- Witness for the amended C9 at concrete inputs: an uncaught read
failure, a caught insert failure in the issuance flow, and a caught
insert failure in the registration flow. -/
theorem C9_erros_corrigido_witness :
    pagina_lancar_run inpC9 [] false true (fun _ => true) [] =
      ⟨[Op.selectClientes], false, false, true⟩ ∧
    (pagina_lancar_run inpC9 [] false false (fun _ => true) []).uncaught = false ∧
    pagina_lancar_run inpC9 [] false false (fun _ => true) [] =
      ⟨Op.selectClientes :: (opsTry inpC9 [] []).take (0 + 1), false, true, false⟩ ∧
    pagina_cadastrar_run ['a'] [] [] [] true =
      ⟨[Op.insertCliente ['a'] none none none], false, true, false⟩ := by
  have h := C9_erros_corrigido
  refine ⟨h.1 inpC9 [] false (fun _ => true) [],
    h.2.1 inpC9 [] false (fun _ => true) [], ?_, ?_⟩
  · exact h.2.2.1 inpC9 [] (fun _ => true) [] 0 (by decide) (by decide) rfl
      (fun m hm => absurd hm (Nat.not_lt_zero m))
  · exact h.2.2.2 ['a'] [] [] [] (by decide)
